import Mathlib

/-!
Verification development for the vector-operator repository.

Part 1 embeds the idempotent resource synchronizer from the k8sutils
package (reconcileService, reconcileSecret, reconcileDaemonSet,
reconcileStatefulSet, reconcileServiceAccount, reconcileClusterRole,
reconcileClusterRoleBinding).  Kubernetes objects are shallowly embedded
as records carrying the fields the reconcilers read or write, plus the
server-managed fields resourceVersion and status.  The cluster is
modelled as the optional object currently held under the desired
identity: Create succeeds when it is absent and fails with AlreadyExists
when it is present, and Get returns the held object.  Each reconciler is
embedded as a function from the desired object and the cluster state to
the list of API calls it issues, in order.

Part 2 embeds the configuration builder from the config package and the
hash-gated orchestrator pass from vector_controller.go.
-/

namespace VectorOperator

/-- An API call issued by a reconciler against the cluster. -/
inductive ApiOp (α : Type) where
  | create (obj : α)
  | get
  | update (obj : α)
deriving DecidableEq

/-- Returns true when the call is an update. -/
def isUpdateOp {α : Type} : ApiOp α → Bool
  | ApiOp.update _ => true
  | _ => false

/-- Number of update calls in a list of API calls. -/
def updateCount {α : Type} (ops : List (ApiOp α)) : Nat :=
  (ops.filter isUpdateOp).length

/-- Embeds corev1.Service: the reconciler reads and writes Spec and
Labels; resourceVersion and status are server-managed. -/
structure ServiceObj where
  name : String
  ns : String
  labels : List (String × String)
  spec : String
  resourceVersion : String
  status : String
deriving DecidableEq

/-- Embeds corev1.Secret: the reconciler reads and writes Data and
Labels. -/
structure SecretObj where
  name : String
  ns : String
  labels : List (String × String)
  data : List (String × String)
  resourceVersion : String
  status : String
deriving DecidableEq

/-- Embeds appsv1.DaemonSet: the reconciler reads and writes Spec and
Labels. -/
structure DaemonSetObj where
  name : String
  ns : String
  labels : List (String × String)
  spec : String
  resourceVersion : String
  status : String
deriving DecidableEq

/-- Embeds appsv1.StatefulSet: the reconciler reads and writes Spec and
Labels. -/
structure StatefulSetObj where
  name : String
  ns : String
  labels : List (String × String)
  spec : String
  resourceVersion : String
  status : String
deriving DecidableEq

/-- Embeds corev1.ServiceAccount: the reconciler mutates nothing. -/
structure ServiceAccountObj where
  name : String
  ns : String
  labels : List (String × String)
  resourceVersion : String
  status : String
deriving DecidableEq

/-- Embeds rbacv1.ClusterRole: the reconciler reads and writes Rules. -/
structure ClusterRoleObj where
  name : String
  labels : List (String × String)
  rules : List String
  resourceVersion : String
  status : String
deriving DecidableEq

/-- Embeds rbacv1.ClusterRoleBinding: the reconciler reads and writes
RoleRef and Subjects. -/
structure ClusterRoleBindingObj where
  name : String
  labels : List (String × String)
  roleRef : String
  subjects : List String
  resourceVersion : String
  status : String
deriving DecidableEq

/-- Embeds reconcileService: create desired; on AlreadyExists fetch the
existing object and, when equality.Semantic.DeepEqual(existing, desired)
fails, overwrite Spec and Labels on the fetched object and update it. -/
def reconcileService (desired : ServiceObj) (cluster : Option ServiceObj) :
    List (ApiOp ServiceObj) :=
  match cluster with
  | none => [ApiOp.create desired]
  | some existing =>
    if ¬ (existing = desired) then
      [ApiOp.create desired, ApiOp.get,
        ApiOp.update { existing with spec := desired.spec, labels := desired.labels }]
    else
      [ApiOp.create desired, ApiOp.get]

/-- Embeds reconcileSecret: like reconcileService but overwriting Data
and Labels. -/
def reconcileSecret (desired : SecretObj) (cluster : Option SecretObj) :
    List (ApiOp SecretObj) :=
  match cluster with
  | none => [ApiOp.create desired]
  | some existing =>
    if ¬ (existing = desired) then
      [ApiOp.create desired, ApiOp.get,
        ApiOp.update { existing with data := desired.data, labels := desired.labels }]
    else
      [ApiOp.create desired, ApiOp.get]

/-- Embeds reconcileDaemonSet: overwrites Spec and Labels. -/
def reconcileDaemonSet (desired : DaemonSetObj) (cluster : Option DaemonSetObj) :
    List (ApiOp DaemonSetObj) :=
  match cluster with
  | none => [ApiOp.create desired]
  | some existing =>
    if ¬ (existing = desired) then
      [ApiOp.create desired, ApiOp.get,
        ApiOp.update { existing with spec := desired.spec, labels := desired.labels }]
    else
      [ApiOp.create desired, ApiOp.get]

/-- Embeds reconcileStatefulSet: overwrites Spec and Labels. -/
def reconcileStatefulSet (desired : StatefulSetObj) (cluster : Option StatefulSetObj) :
    List (ApiOp StatefulSetObj) :=
  match cluster with
  | none => [ApiOp.create desired]
  | some existing =>
    if ¬ (existing = desired) then
      [ApiOp.create desired, ApiOp.get,
        ApiOp.update { existing with spec := desired.spec, labels := desired.labels }]
    else
      [ApiOp.create desired, ApiOp.get]

/-- Embeds reconcileServiceAccount: create desired; on AlreadyExists
fetch the existing object and stop.  No comparison and no update. -/
def reconcileServiceAccount (desired : ServiceAccountObj)
    (cluster : Option ServiceAccountObj) : List (ApiOp ServiceAccountObj) :=
  match cluster with
  | none => [ApiOp.create desired]
  | some _ => [ApiOp.create desired, ApiOp.get]

/-- Embeds reconcileClusterRole: overwrites Rules. -/
def reconcileClusterRole (desired : ClusterRoleObj) (cluster : Option ClusterRoleObj) :
    List (ApiOp ClusterRoleObj) :=
  match cluster with
  | none => [ApiOp.create desired]
  | some existing =>
    if ¬ (existing = desired) then
      [ApiOp.create desired, ApiOp.get,
        ApiOp.update { existing with rules := desired.rules }]
    else
      [ApiOp.create desired, ApiOp.get]

/-- Embeds reconcileClusterRoleBinding: overwrites RoleRef and
Subjects. -/
def reconcileClusterRoleBinding (desired : ClusterRoleBindingObj)
    (cluster : Option ClusterRoleBindingObj) : List (ApiOp ClusterRoleBindingObj) :=
  match cluster with
  | none => [ApiOp.create desired]
  | some existing =>
    if ¬ (existing = desired) then
      [ApiOp.create desired, ApiOp.get,
        ApiOp.update { existing with roleRef := desired.roleRef, subjects := desired.subjects }]
    else
      [ApiOp.create desired, ApiOp.get]

/-!
Part 2: the configuration builder (config package).  The Source,
Transform and Sink structures carry the fields the builder reads or
writes; pipeline raw payloads are modelled as already-decoded
association lists from local key to component, since the claims are
about the post-decode logic and decode failures are out of scope.
-/

/-- Constant KubernetesSourceType from the config package. -/
def KubernetesSourceType : String := "kubernetes_logs"

/-- Constant BlackholeSinkType from the config package. -/
def BlackholeSinkType : String := "blackhole"

/-- Constant InternalMetricsSourceType from the config package. -/
def InternalMetricsSourceType : String := "internal_metrics"

/-- Constant InternalMetricsSourceName from the config package. -/
def InternalMetricsSourceName : String := "internalMetricsSource"

/-- Constant InternalMetricsSinkType from the config package. -/
def InternalMetricsSinkType : String := "prometheus_exporter"

/-- Constant InternalMetricsSinkName from the config package. -/
def InternalMetricsSinkName : String := "internalMetricsSink"

/-- Constant MergedKubernetesSourceName from the config package. -/
def MergedKubernetesSourceName : String := "mergedKubernetesSource"

/-- Constant MergedSourceTransformName from the config package. -/
def MergedSourceTransformName : String := "merged"

/-- Constant RouteTransformType from the config package. -/
def RouteTransformType : String := "route"

/-- Constant DefaultSourceName from the config package. -/
def DefaultSourceName : String := "defaultSource"

/-- Constant PodSelectorType from the config package. -/
def PodSelectorType : String := "pod_labels"

/-- Constant NamespaceSelectorType from the config package. -/
def NamespaceSelectorType : String := "ns_labels"

/-- The two builder errors PipelineTypeError and PipelineScopeError. -/
inductive BuildError where
  | pipelineTypeError
  | pipelineScopeError
deriving DecidableEq

/-- A vector source component.  Option payloads are modelled as opaque
association lists. -/
structure Source where
  name : String
  type : String
  extraNamespaceLabelSelector : String
  extraLabelSelector : String
  extraFieldSelector : String
  options : Option (List (String × String))
deriving DecidableEq

/-- A vector transform component; route maps a retired source name to a
filter expression. -/
structure Transform where
  name : String
  type : String
  inputs : List String
  route : List (String × String)
deriving DecidableEq

/-- A vector sink component; optionsHash is the content hash of the
serialized options. -/
structure Sink where
  name : String
  type : String
  inputs : List String
  options : Option (List (String × String))
  optionsHash : String
deriving DecidableEq

/-- The aggregate configuration assembled by the builder. -/
structure VectorConfig where
  sources : List Source
  transforms : List Transform
  sinks : List Sink
deriving DecidableEq

/-- Pipeline scope kinds: ClusterPipelineKind versus the namespaced
pipeline kind. -/
inductive PipelineKind where
  | cluster
  | namespaced
deriving DecidableEq

/-- Modelled from the spec: the pipeline custom resource (its API types
are not under src).  It exposes a scope kind, namespace, name, and raw
sources, transforms and sinks payloads; the raw JSON maps are modelled
as already-decoded association lists from local key to component, whose
name fields are overwritten during extraction. -/
structure Pipeline where
  kind : PipelineKind
  ns : String
  name : String
  sources : Option (List (String × Source))
  transforms : Option (List (String × Transform))
  sinks : Option (List (String × Sink))
deriving DecidableEq

/-- Modelled from the spec: the agent settings the builder reads from
the Vector custom resource (not under src): Spec.Agent.InternalMetrics,
Spec.MergeKubernetesSources and Spec.MergeSinks. -/
structure AgentSpec where
  internalMetrics : Bool
  mergeKubernetesSources : Bool
  mergeSinks : Bool
deriving DecidableEq

/-- The config.Builder: agent settings plus the pipeline set. -/
structure Builder where
  agent : AgentSpec
  pipelines : List Pipeline
deriving DecidableEq

/-- Modelled from the spec: the content hash function hash.Get (its
package is not under src); any deterministic content hash is faithful
to the spec, so a simple polynomial hash over the byte list is used. -/
def hashGet (l : List Nat) : Nat :=
  l.foldl (fun a c => (a * 33 + c) % 1000000007) 5381

/-- Character codes of a string, used to feed strings to hashGet. -/
def strBytes (s : String) : List Nat :=
  s.toList.map Char.toNat

/-- Modelled from the spec: serialization of a sink options payload for
hashing (json.Marshal in getSinks); a nil payload serializes to the
four bytes of null, mirroring encoding/json. -/
def optionsEncode : Option (List (String × String)) → List Nat
  | none => strBytes "null"
  | some l => l.foldr (fun kv acc => strBytes kv.1 ++ [1] ++ strBytes kv.2 ++ [2] ++ acc) []

/-- Modelled from the spec: addPrefix (its utils package is not under
src) builds the global component name namespace.pipeline.key. -/
def prefixName (ns pname k : String) : String :=
  ns ++ "." ++ pname ++ "." ++ k

/-- Modelled from the spec: k8s.NamespaceNameToLabel (its utils package
is not under src) yields the namespace label filter implied by a
namespace name. -/
def NamespaceNameToLabel (ns : String) : String :=
  "kubernetes.io/metadata.name=" ++ ns

/-- Embeds getSources with a nil filter as called from getComponents:
decode the raw sources map and rename each entry to the global prefix
scheme. -/
def getSources (p : Pipeline) : List Source :=
  match p.sources with
  | none => []
  | some entries => entries.map fun e => { e.2 with name := prefixName p.ns p.name e.1 }

/-- Embeds getTransforms: rename each transform to the global prefix
scheme and rewrite each of its inputs through the same prefixing rule. -/
def getTransforms (p : Pipeline) : List Transform :=
  match p.transforms with
  | none => []
  | some entries => entries.map fun e =>
      { e.2 with
        name := prefixName p.ns p.name e.1,
        inputs := e.2.inputs.map (prefixName p.ns p.name) }

/-- Embeds getSinks: rename, rewrite inputs, and record the content
hash of the serialized options in optionsHash. -/
def getSinks (p : Pipeline) : List Sink :=
  match p.sinks with
  | none => []
  | some entries => entries.map fun e =>
      { e.2 with
        name := prefixName p.ns p.name e.1,
        inputs := e.2.inputs.map (prefixName p.ns p.name),
        optionsHash := toString (hashGet (optionsEncode e.2.options)) }

/-- Embeds the per-source body of the getComponents loop: default an
empty namespace filter of a namespaced kubernetes-log source to the
filter implied by the pipeline namespace, then enforce the type and
scope rules for namespaced pipelines. -/
def checkPipelineSource (p : Pipeline) (s0 : Source) : Except BuildError Source :=
  let s :=
    if s0.type = KubernetesSourceType ∧ p.kind ≠ PipelineKind.cluster ∧
        s0.extraNamespaceLabelSelector = "" then
      { s0 with extraNamespaceLabelSelector := NamespaceNameToLabel p.ns }
    else s0
  if p.kind ≠ PipelineKind.cluster then
    if s.type ≠ KubernetesSourceType then
      Except.error BuildError.pipelineTypeError
    else if s.type = InternalMetricsSourceType then
      Except.error BuildError.pipelineTypeError
    else if s.extraNamespaceLabelSelector ≠ "" ∧
        s.extraNamespaceLabelSelector ≠ NamespaceNameToLabel p.ns then
      Except.error BuildError.pipelineScopeError
    else
      Except.ok s
  else
    Except.ok s

/-- Embeds the inner source loop of getComponents over one pipeline:
check each extracted source in order, failing fast on the first
violation. -/
def checkSources (p : Pipeline) : List Source → Except BuildError (List Source)
  | [] => Except.ok []
  | s :: rest => do
    let c ← checkPipelineSource p s
    let cs ← checkSources p rest
    pure (c :: cs)

/-- Embeds the pipeline loop of getComponents, concatenating the
per-pipeline sources, transforms and sinks in order. -/
def getComponentsAux : List Pipeline → Except BuildError (List Source × List Transform × List Sink)
  | [] => Except.ok ([], [], [])
  | p :: rest => do
    let ss ← checkSources p (getSources p)
    let (rs, rt, rk) ← getComponentsAux rest
    pure (ss ++ rs, getTransforms p ++ rt, getSinks p ++ rk)

/-- Embeds Builder.getComponents. -/
def getComponents (b : Builder) : Except BuildError (List Source × List Transform × List Sink) :=
  getComponentsAux b.pipelines

/-- The package-level default kubernetes-log source sourceDefault. -/
def sourceDefault : Source :=
  { name := "defaultSource", type := KubernetesSourceType,
    extraNamespaceLabelSelector := "", extraLabelSelector := "",
    extraFieldSelector := "", options := none }

/-- The package-level internal metrics source internalMetricSource. -/
def internalMetricSource : Source :=
  { name := InternalMetricsSourceName, type := InternalMetricsSourceType,
    extraNamespaceLabelSelector := "", extraLabelSelector := "",
    extraFieldSelector := "", options := none }

/-- The package-level default discard sink sinkDefault, wired to
sourceDefault. -/
def sinkDefault : Sink :=
  { name := "defaultSink", type := BlackholeSinkType,
    inputs := [sourceDefault.name],
    options := some [("rate", "100"), ("print_interval_secs", "60")],
    optionsHash := "" }

/-- The package-level internal metrics exporter sink
internalMetricsExporter. -/
def internalMetricsExporter : Sink :=
  { name := InternalMetricsSinkName, type := InternalMetricsSinkType,
    inputs := [internalMetricSource.name], options := none, optionsHash := "" }

/-- Embeds isExporterSinkExists. -/
def isExporterSinkExists (sinks : List Sink) : Bool :=
  sinks.any fun s => s.type == InternalMetricsSinkType

/-- Splitting a character list on a one-character separator, the
splitting discipline of strings.Split: the empty list yields one empty
field and every separator occurrence starts a new field. -/
def splitOneChar (a : Char) : List Char → List (List Char)
  | [] => [[]]
  | c :: rest =>
    if c = a then [] :: splitOneChar a rest
    else
      match splitOneChar a rest with
      | [] => [[c]]
      | h :: t => (c :: h) :: t

/-- Splitting a character list on a two-character separator, the
splitting discipline of strings.Split. -/
def splitTwoChar (a b : Char) : List Char → List (List Char)
  | [] => [[]]
  | [c] => [[c]]
  | c :: d :: rest =>
    if c = a ∧ d = b then [] :: splitTwoChar a b rest
    else
      match splitTwoChar a b (d :: rest) with
      | [] => [[c]]
      | h :: t => (c :: h) :: t

/-- Embeds strings.Split with a one-character separator. -/
def strSplitOne (a : Char) (s : String) : List String :=
  (splitOneChar a s.toList).map fun cs => String.mk cs

/-- Embeds strings.Split with a two-character separator. -/
def strSplitTwo (a b : Char) (s : String) : List String :=
  (splitTwoChar a b s.toList).map fun cs => String.mk cs

/-- Embeds strings.TrimSuffix for the two-character suffix of the
and-operator: drop one trailing occurrence when present. -/
def trimAndSuffix (s : String) : String :=
  match s.toList.reverse with
  | '&' :: '&' :: rest => String.mk rest.reverse
  | _ => s

/-- Embeds formatVrlSelector: a key!=value clause becomes a quoted
inequality, a key=value clause a quoted equality, anything else passes
through verbatim. -/
def formatVrlSelector (label : String) : String :=
  let l := strSplitTwo '!' '=' label
  if l.length = 2 then
    "\"" ++ l.getD 0 "" ++ "\" != \"" ++ l.getD 1 "" ++ "\""
  else
    let m := strSplitOne '=' label
    if m.length ≠ 2 then label
    else "\"" ++ m.getD 0 "" ++ "\" == \"" ++ m.getD 1 "" ++ "\""

/-- Embeds generateVrlFilter: split the selector on commas, format each
clause, emit the pod-label or namespace-label path for the selector
type joined by the and-operator, and trim the trailing operator. -/
def generateVrlFilter (selector : String) (selectorType : String) : String :=
  let labels := strSplitOne ',' selector
  let buf := labels.foldl (fun acc label =>
    let f := formatVrlSelector label
    if selectorType = PodSelectorType then
      acc ++ ".kubernetes.pod_labels." ++ f ++ "&&"
    else if selectorType = NamespaceSelectorType then
      acc ++ ".kubernetes.namespace_labels." ++ f ++ "&&"
    else acc) ""
  trimAndSuffix buf

/-- Eligibility test of mergeKubernetesSources: a kubernetes-log source
with no field selector, both label filters set, and no options. -/
def sourceEligible (s : Source) : Bool :=
  s.type == KubernetesSourceType && s.extraFieldSelector == "" &&
    s.extraNamespaceLabelSelector != "" && s.extraLabelSelector != "" &&
    decide (s.options = none)

/-- The route expression mergeKubernetesSources synthesizes for one
retired source: its pod-label filter and its namespace-label filter
joined by the and-operator. -/
def sourceRoute (s : Source) : String :=
  generateVrlFilter s.extraLabelSelector PodSelectorType ++ "&&" ++
    generateVrlFilter s.extraNamespaceLabelSelector NamespaceSelectorType

/-- The routes table mergeKubernetesSources collects: one entry per
eligible source, keyed by its retired name. -/
def routesOf (config : VectorConfig) : List (String × String) :=
  config.sources.filterMap fun s =>
    if sourceEligible s then some (s.name, sourceRoute s) else none

/-- Embeds mergeKubernetesSources: retire every eligible source,
replace them with one shared bare kubernetes-log source, append a route
transform keyed by the retired names, and rewrite every transform and
sink input that named a retired source to the route-addressed name. -/
def mergeKubernetesSources (config : VectorConfig) : VectorConfig :=
  let routes := routesOf config
  let keptSources := config.sources.filter fun s => ¬ sourceEligible s
  if 0 < routes.length then
    let rw : String → String := fun i =>
      if (routes.lookup i).isSome then MergedSourceTransformName ++ "." ++ i else i
    { sources := keptSources ++
        [{ name := MergedKubernetesSourceName, type := KubernetesSourceType,
           extraNamespaceLabelSelector := "", extraLabelSelector := "",
           extraFieldSelector := "", options := none }],
      transforms := (config.transforms.map fun t => { t with inputs := t.inputs.map rw }) ++
        [{ name := MergedSourceTransformName, type := RouteTransformType,
           inputs := [MergedKubernetesSourceName], route := routes }],
      sinks := config.sinks.map fun s => { s with inputs := s.inputs.map rw } }
  else config

/-- Insertion step of the embedding of sort.Strings. -/
def insertSorted (x : String) : List String → List String
  | [] => [x]
  | y :: ys => if x ≤ y then x :: y :: ys else y :: insertSorted x ys

/-- Embeds sort.Strings: sort a string list ascending. -/
def sortStrings (l : List String) : List String :=
  l.foldr insertSorted []

/-- The in-place mutation mergeSyncs applies to the canonical sink of a
group: rename it to its options hash and absorb the inputs of the
later sink, sorted. -/
def mergedSinkOf (v sink : Sink) : Sink :=
  { v with name := v.optionsHash, inputs := sortStrings (v.inputs ++ sink.inputs) }

/-- One iteration of the mergeSyncs loop.  The state is the list of
sinks kept so far together with the uniqOpts table, which maps an
options hash to the position of the sink most recently stored under
that hash (Go stores a pointer into the kept list; the position models
that pointer, and in-place mutation of the pointed-to sink is modelled
by updating the kept list at that position). -/
def mergeStep (st : List Sink × List (String × Nat)) (sink : Sink) :
    List Sink × List (String × Nat) :=
  match st.2.lookup sink.optionsHash with
  | some idx =>
    match st.1[idx]? with
    | some v =>
      if sink.type = v.type then
        (st.1.set idx (mergedSinkOf v sink), st.2)
      else
        (st.1 ++ [sink], (sink.optionsHash, st.1.length) :: st.2)
    | none => (st.1 ++ [sink], (sink.optionsHash, st.1.length) :: st.2)
  | none => (st.1 ++ [sink], (sink.optionsHash, st.1.length) :: st.2)

/-- The sink-list level of mergeSyncs: fold the loop over the sinks and
keep the merged list when it is non-empty. -/
def mergeSinkList (sinks : List Sink) : List Sink :=
  let merged := (sinks.foldl mergeStep ([], [])).1
  if 0 < merged.length then merged else sinks

/-- Embeds Builder.mergeSyncs on the configuration. -/
def mergeSyncs (config : VectorConfig) : VectorConfig :=
  { config with sinks := mergeSinkList config.sinks }

/-- The pure tail of generateVectorConfig after getComponents: internal
metrics injection, source and sink defaulting, and the two optional
merge passes. -/
def assembleConfig (b : Builder) (s0 : List Source) (t0 : List Transform)
    (k0 : List Sink) : VectorConfig :=
  let st1 :=
    if b.agent.internalMetrics ∧ ¬ (isExporterSinkExists k0 = true) then
      (s0 ++ [internalMetricSource], k0 ++ [internalMetricsExporter])
    else (s0, k0)
  let s2 := if st1.1.isEmpty then [sourceDefault] else st1.1
  let k2 := if st1.2.isEmpty then [sinkDefault] else st1.2
  let cfg : VectorConfig := { sources := s2, transforms := t0, sinks := k2 }
  let cfg := if b.agent.mergeKubernetesSources then mergeKubernetesSources cfg else cfg
  if b.agent.mergeSinks then mergeSyncs cfg else cfg

/-- Embeds Builder.generateVectorConfig: extract the components, then
assemble; a component extraction error aborts the build with no
partial configuration. -/
def generateVectorConfig (b : Builder) : Except BuildError VectorConfig :=
  match getComponents b with
  | Except.error e => Except.error e
  | Except.ok (s0, t0, k0) => Except.ok (assembleConfig b s0 t0 k0)

/-- Names a component input may legally reference: source names,
transform names, and the route-addressed outputs transformName.route
of each route entry. -/
def refNames (c : VectorConfig) : List String :=
  c.sources.map Source.name ++ c.transforms.map Transform.name ++
    (c.transforms.map fun t => t.route.map fun r => t.name ++ "." ++ r.1).flatten

/-- Decides whether one input resolves in a configuration. -/
def inputOk (c : VectorConfig) (i : String) : Bool :=
  decide (i ∈ refNames c)

/-- Decides the reference-integrity invariant: every input of every
transform and sink resolves. -/
def resolvesOk (c : VectorConfig) : Bool :=
  c.transforms.all (fun t => t.inputs.all (inputOk c)) &&
    c.sinks.all (fun s => s.inputs.all (inputOk c))

/-!
Part 3: the hash-gated orchestrator pass of vector_controller.go.
createOrUpdateVector builds the configuration, hashes it, and runs the
external config validator only when the recorded last-applied hash is
absent or differs; on validator rejection it records a failed status
and returns cleanly, on validator infrastructure error it returns a
reconcile error, and otherwise it applies the agent resources and
records the new hash and a success status.
-/

/-- Outcome of one invocation of the external config validator
(configcheck.Run, modelled from the spec: its package is not under
src): accepted, semantically rejected, or failed for infrastructure
reasons. -/
inductive CheckOutcome where
  | accepted
  | rejected
  | infraError
deriving DecidableEq

/-- Modelled from the spec: the status subresource fields the pass
reads and writes. -/
structure VectorStatus where
  lastAppliedConfigHash : Option Nat
  phase : Option String
deriving DecidableEq

/-- Result of one orchestrator pass: whether the external validator was
invoked, the resulting status, and whether a reconcile error was
returned. -/
structure PassResult where
  validatorInvoked : Bool
  status : VectorStatus
  reconcileError : Bool
deriving DecidableEq

/-- Embeds the hash gate and tail of createOrUpdateVector for an
already-built configuration.  EnsureVectorAgent and the status writes
are collaborators not under src, modelled from the spec as boolean
success oracles: ensureOk is the apply step, persistOk the
optimistic-concurrency write recording the new hash. -/
def createOrUpdateVector (st : VectorStatus) (byteConfig : List Nat)
    (outcome : CheckOutcome) (ensureOk : Bool) (persistOk : Bool) : PassResult :=
  let cfgHash := hashGet byteConfig
  let needCheck :=
    match st.lastAppliedConfigHash with
    | none => true
    | some h => decide (h ≠ cfgHash)
  let finish : VectorStatus → PassResult := fun s =>
    if ensureOk then
      if persistOk then
        ⟨needCheck, { lastAppliedConfigHash := some cfgHash, phase := some "success" }, false⟩
      else ⟨needCheck, s, true⟩
    else ⟨needCheck, s, true⟩
  if needCheck then
    match outcome with
    | CheckOutcome.rejected => ⟨true, { st with phase := some "failed" }, false⟩
    | CheckOutcome.infraError => ⟨true, st, true⟩
    | CheckOutcome.accepted => finish st
  else finish st

deriving instance DecidableEq for Except

/-!
Theorems.  Claim ids C1 to C10 refer to the frozen claim list for this
repository.
-/

/-- C1 counterexample: the claim says an update is issued if and only
if the relevant mutable fields (spec and labels for a Service) differ,
never comparing server-managed fields.  Concretely, for a desired
Service whose spec and labels equal the fetched existing object while
only the server-managed resourceVersion differs, reconcileService
compares the whole objects and issues an update anyway, where the
claim requires zero update calls. -/
theorem c1_counterexample :
    (⟨"svc", "d", [], "spec-a", "", ""⟩ : ServiceObj).spec =
        (⟨"svc", "d", [], "spec-a", "42", ""⟩ : ServiceObj).spec
    ∧ (⟨"svc", "d", [], "spec-a", "", ""⟩ : ServiceObj).labels =
        (⟨"svc", "d", [], "spec-a", "42", ""⟩ : ServiceObj).labels
    ∧ updateCount (reconcileService ⟨"svc", "d", [], "spec-a", "", ""⟩
        (some ⟨"svc", "d", [], "spec-a", "42", ""⟩)) = 1 := by
  decide

/-- C1 amended: after an already-exists create failure, the
Service, Secret, DaemonSet, StatefulSet, ClusterRole and
ClusterRoleBinding reconcilers issue exactly one update when the whole
fetched object differs from desired under deep structural equality
(including server-managed fields) and zero updates when the whole
objects are equal; every issued update overwrites exactly the
kind-specific mutable fields with the desired values and keeps the
identity, resourceVersion and status of the fetched object.  The
ServiceAccount reconciler never issues an update. -/
theorem c1_sync_update_amended :
    (∀ (d e : ServiceObj),
      updateCount (reconcileService d (some e)) = (if e = d then 0 else 1)
      ∧ ∀ u, ApiOp.update u ∈ reconcileService d (some e) →
          u.spec = d.spec ∧ u.labels = d.labels ∧ u.name = e.name ∧ u.ns = e.ns
            ∧ u.resourceVersion = e.resourceVersion ∧ u.status = e.status)
    ∧ (∀ (d e : SecretObj),
      updateCount (reconcileSecret d (some e)) = (if e = d then 0 else 1)
      ∧ ∀ u, ApiOp.update u ∈ reconcileSecret d (some e) →
          u.data = d.data ∧ u.labels = d.labels ∧ u.name = e.name ∧ u.ns = e.ns
            ∧ u.resourceVersion = e.resourceVersion ∧ u.status = e.status)
    ∧ (∀ (d e : DaemonSetObj),
      updateCount (reconcileDaemonSet d (some e)) = (if e = d then 0 else 1)
      ∧ ∀ u, ApiOp.update u ∈ reconcileDaemonSet d (some e) →
          u.spec = d.spec ∧ u.labels = d.labels ∧ u.name = e.name ∧ u.ns = e.ns
            ∧ u.resourceVersion = e.resourceVersion ∧ u.status = e.status)
    ∧ (∀ (d e : StatefulSetObj),
      updateCount (reconcileStatefulSet d (some e)) = (if e = d then 0 else 1)
      ∧ ∀ u, ApiOp.update u ∈ reconcileStatefulSet d (some e) →
          u.spec = d.spec ∧ u.labels = d.labels ∧ u.name = e.name ∧ u.ns = e.ns
            ∧ u.resourceVersion = e.resourceVersion ∧ u.status = e.status)
    ∧ (∀ (d e : ClusterRoleObj),
      updateCount (reconcileClusterRole d (some e)) = (if e = d then 0 else 1)
      ∧ ∀ u, ApiOp.update u ∈ reconcileClusterRole d (some e) →
          u.rules = d.rules ∧ u.labels = e.labels ∧ u.name = e.name
            ∧ u.resourceVersion = e.resourceVersion ∧ u.status = e.status)
    ∧ (∀ (d e : ClusterRoleBindingObj),
      updateCount (reconcileClusterRoleBinding d (some e)) = (if e = d then 0 else 1)
      ∧ ∀ u, ApiOp.update u ∈ reconcileClusterRoleBinding d (some e) →
          u.roleRef = d.roleRef ∧ u.subjects = d.subjects ∧ u.labels = e.labels
            ∧ u.name = e.name ∧ u.resourceVersion = e.resourceVersion ∧ u.status = e.status)
    ∧ (∀ (d : ServiceAccountObj) (c : Option ServiceAccountObj),
      updateCount (reconcileServiceAccount d c) = 0) := by
  refine ⟨?_, ?_, ?_, ?_, ?_, ?_, ?_⟩
  · intro d e
    by_cases h : e = d <;> simp [reconcileService, updateCount, isUpdateOp, h]
  · intro d e
    by_cases h : e = d <;> simp [reconcileSecret, updateCount, isUpdateOp, h]
  · intro d e
    by_cases h : e = d <;> simp [reconcileDaemonSet, updateCount, isUpdateOp, h]
  · intro d e
    by_cases h : e = d <;> simp [reconcileStatefulSet, updateCount, isUpdateOp, h]
  · intro d e
    by_cases h : e = d <;> simp [reconcileClusterRole, updateCount, isUpdateOp, h]
  · intro d e
    by_cases h : e = d <;> simp [reconcileClusterRoleBinding, updateCount, isUpdateOp, h]
  · intro d c
    cases c <;> simp [reconcileServiceAccount, updateCount, isUpdateOp]

/-- C1 amended witness: instantiates the Service conjunct at a concrete
desired and existing object that differ in spec, discharging the update
membership hypothesis by computation. -/
theorem c1_sync_update_amended_witness :
    (⟨"svc", "ns", [], "new", "7", "st"⟩ : ServiceObj).spec = "new"
    ∧ (⟨"svc", "ns", [], "new", "7", "st"⟩ : ServiceObj).resourceVersion = "7" := by
  have h := (c1_sync_update_amended.1 ⟨"svc", "ns", [], "new", "", ""⟩
      ⟨"svc", "ns", [("k", "v")], "old", "7", "st"⟩).2
      ⟨"svc", "ns", [], "new", "7", "st"⟩ (by decide)
  exact ⟨h.1, h.2.2.2.2.1⟩

/-- C2 counterexample: the claim says re-running the Orchestrator on an
unchanged build never invokes the validator again.  Starting from a
status with no recorded hash, a pass whose validator rejects the
configuration does not record the hash, so re-running the pass on the
identical build invokes the validator a second time. -/
theorem c2_counterexample :
    (createOrUpdateVector ⟨none, none⟩ [1, 2] CheckOutcome.rejected true true).validatorInvoked
        = true
    ∧ (createOrUpdateVector
        (createOrUpdateVector ⟨none, none⟩ [1, 2] CheckOutcome.rejected true true).status
        [1, 2] CheckOutcome.rejected true true).validatorInvoked = true := by
  decide

/-- C2 amended: in every pass the external validator is invoked exactly
when the recorded last-applied hash is absent or differs from the
content hash of the built configuration, and re-running the pass on an
unchanged build after a pass that completed successfully (validation
accepted, apply and status persist succeeded) never invokes the
validator again. -/
theorem c2_hash_gate_amended :
    (∀ (st : VectorStatus) (cfg : List Nat) (oc : CheckOutcome) (en pe : Bool),
      ((createOrUpdateVector st cfg oc en pe).validatorInvoked = true ↔
        st.lastAppliedConfigHash ≠ some (hashGet cfg)))
    ∧ (∀ (st : VectorStatus) (cfg : List Nat) (oc : CheckOutcome) (en pe : Bool),
      (createOrUpdateVector
        (createOrUpdateVector st cfg CheckOutcome.accepted true true).status
        cfg oc en pe).validatorInvoked = false) := by
  constructor
  · intro st cfg oc en pe
    rcases st with ⟨h, ph⟩
    cases h with
    | none => cases oc <;> cases en <;> cases pe <;> simp [createOrUpdateVector]
    | some v =>
      by_cases hv : v = hashGet cfg <;>
        cases oc <;> cases en <;> cases pe <;>
        simp [createOrUpdateVector, hv]
  · intro st cfg oc en pe
    rcases st with ⟨h, ph⟩
    have hfst : (createOrUpdateVector ⟨h, ph⟩ cfg CheckOutcome.accepted true true).status =
        ⟨some (hashGet cfg), some "success"⟩ := by
      cases h with
      | none => simp [createOrUpdateVector]
      | some v => by_cases hv : v = hashGet cfg <;> simp [createOrUpdateVector, hv]
    rw [hfst]
    cases oc <;> cases en <;> cases pe <;> simp [createOrUpdateVector]

/-- C2 amended witness: with no recorded hash the gate invokes the
validator, by the left-to-right direction instantiated concretely. -/
theorem c2_hash_gate_amended_witness :
    (createOrUpdateVector ⟨none, none⟩ [5] CheckOutcome.accepted true true).validatorInvoked
      = true :=
  (c2_hash_gate_amended.1 ⟨none, none⟩ [5] CheckOutcome.accepted true true).mpr (by decide)

/-- A cluster-scoped pipeline declaring four sinks with identical (nil)
options, two of type blackhole and two of type loki, so all four carry
the same options hash. -/
def collidingSinkPipeline : Pipeline :=
  { kind := PipelineKind.cluster, ns := "ns1", name := "p",
    sources := none, transforms := none,
    sinks := some [
      ("a", { name := "", type := "blackhole", inputs := [], options := none, optionsHash := "" }),
      ("b", { name := "", type := "blackhole", inputs := [], options := none, optionsHash := "" }),
      ("c", { name := "", type := "loki", inputs := [], options := none, optionsHash := "" }),
      ("d", { name := "", type := "loki", inputs := [], options := none, optionsHash := "" })] }

/-- A builder over collidingSinkPipeline with the sink merge pass
enabled. -/
def collidingSinkBuilder : Builder :=
  { agent := { internalMetrics := false, mergeKubernetesSources := false, mergeSinks := true },
    pipelines := [collidingSinkPipeline] }

/-- C6: the claim states that no two components of a successfully
emitted configuration share a name.  The build over
collidingSinkBuilder succeeds, yet the sink merge pass renames the
canonical sink of each same-type pair to its options hash, and both
pairs share one options hash, so the emitted configuration carries two
sinks with the same name.  Because the serializer keys components by
name, one of the two sinks is silently dropped from the emitted
document, so the uniqueness the spec claims is the clear intent and the
rename-to-hash overwrite in mergeSyncs is a code bug. -/
theorem c6_duplicate_sink_names :
    Except.map (fun c => (c.sinks.length, decide ((c.sinks.map Sink.name).Nodup)))
      (generateVectorConfig collidingSinkBuilder) = Except.ok (2, false) := by
  decide

/-- A namespaced pipeline whose source list carries first a
kubernetes-log source with a foreign namespace filter and second a
source of a non-cluster-log type. -/
def mixedViolationPipeline : Pipeline :=
  { kind := PipelineKind.namespaced, ns := "ns1", name := "p",
    sources := some [
      ("a", { name := "", type := "kubernetes_logs",
              extraNamespaceLabelSelector := "kubernetes.io/metadata.name=other",
              extraLabelSelector := "", extraFieldSelector := "", options := none }),
      ("bb", { name := "", type := "file", extraNamespaceLabelSelector := "",
               extraLabelSelector := "", extraFieldSelector := "", options := none })],
    transforms := none, sinks := none }

/-- A builder over mixedViolationPipeline. -/
def mixedViolationBuilder : Builder :=
  { agent := { internalMetrics := false, mergeKubernetesSources := false, mergeSinks := false },
    pipelines := [mixedViolationPipeline] }

/-- C3 counterexample: the claim says the build fails with
PipelineTypeError whenever a namespaced pipeline declares a source
whose type is not the cluster-log type.  mixedViolationPipeline
declares such a source (type file under key bb), yet the build fails
with PipelineScopeError, because the loop hits the scope-violating
cluster-log source first. -/
theorem c3_counterexample :
    (∃ e ∈ (mixedViolationPipeline.sources.getD []), e.2.type ≠ KubernetesSourceType)
    ∧ generateVectorConfig mixedViolationBuilder = Except.error BuildError.pipelineScopeError
    ∧ BuildError.pipelineScopeError ≠ BuildError.pipelineTypeError := by
  decide

/-- A cluster pipeline declaring one source and no sinks. -/
def sourceOnlyPipeline : Pipeline :=
  { kind := PipelineKind.cluster, ns := "ns1", name := "p",
    sources := some [
      ("src", { name := "", type := "kubernetes_logs", extraNamespaceLabelSelector := "",
                extraLabelSelector := "", extraFieldSelector := "", options := none })],
    transforms := none, sinks := none }

/-- A builder over sourceOnlyPipeline with no merge passes. -/
def sourceOnlyBuilder : Builder :=
  { agent := { internalMetrics := false, mergeKubernetesSources := false, mergeSinks := false },
    pipelines := [sourceOnlyPipeline] }

/-- C5 counterexample: the claim says every Inputs entry of every
successfully emitted configuration references an emitted source or
transform, and in particular the injected default discard sink is wired
to a source actually present.  Building sourceOnlyBuilder succeeds: the
pipeline declares a source but no sink, so the default discard sink is
injected, yet its input defaultSource is not among the emitted
component names, because the default source is only injected when zero
sources were declared. -/
theorem c5_counterexample :
    Except.map resolvesOk (generateVectorConfig sourceOnlyBuilder) = Except.ok false := by
  decide

/-!
Helper lemmas about the scope checks and component extraction.
-/

/-- An ok result of the source check of a namespaced pipeline is a
kubernetes-log source carrying exactly the namespace filter implied by
the pipeline namespace. -/
theorem checkPipelineSource_ok_sel {p : Pipeline} {s0 c : Source}
    (hk : p.kind ≠ PipelineKind.cluster)
    (h : checkPipelineSource p s0 = Except.ok c) :
    c.type = KubernetesSourceType ∧
      c.extraNamespaceLabelSelector = NamespaceNameToLabel p.ns := by
  simp only [checkPipelineSource] at h
  split_ifs at h with hA hC hD hE
  all_goals simp_all
  subst h
  simp

/-- The defaulting step: a namespaced kubernetes-log source with an
empty namespace filter is assigned the filter implied by the pipeline
namespace and accepted. -/
theorem checkPipelineSource_default {p : Pipeline} {s : Source}
    (hk : p.kind ≠ PipelineKind.cluster)
    (ht : s.type = KubernetesSourceType)
    (hs : s.extraNamespaceLabelSelector = "") :
    checkPipelineSource p s =
      Except.ok { s with extraNamespaceLabelSelector := NamespaceNameToLabel p.ns } := by
  simp only [checkPipelineSource]
  split_ifs with hA hC hD hE
  all_goals simp_all [NamespaceNameToLabel, KubernetesSourceType, InternalMetricsSourceType]

/-- A namespaced source of non-cluster-log type fails the check with
PipelineTypeError. -/
theorem checkPipelineSource_badtype {p : Pipeline} {s : Source}
    (hk : p.kind ≠ PipelineKind.cluster)
    (ht : s.type ≠ KubernetesSourceType) :
    checkPipelineSource p s = Except.error BuildError.pipelineTypeError := by
  simp only [checkPipelineSource]
  split_ifs
  all_goals simp_all

/-- A namespaced kubernetes-log source with a non-empty namespace
filter different from its own namespace filter fails the check with
PipelineScopeError. -/
theorem checkPipelineSource_badscope {p : Pipeline} {s : Source}
    (hk : p.kind ≠ PipelineKind.cluster)
    (ht : s.type = KubernetesSourceType)
    (hs : s.extraNamespaceLabelSelector ≠ "")
    (hw : s.extraNamespaceLabelSelector ≠ NamespaceNameToLabel p.ns) :
    checkPipelineSource p s = Except.error BuildError.pipelineScopeError := by
  simp only [checkPipelineSource]
  split_ifs
  all_goals simp_all [KubernetesSourceType, InternalMetricsSourceType]

/-- Inversion of one step of the source loop. -/
theorem checkSources_cons_inv {p : Pipeline} {s : Source} {rest : List Source}
    {cs : List Source} (h : checkSources p (s :: rest) = Except.ok cs) :
    ∃ c cs2, checkPipelineSource p s = Except.ok c ∧
      checkSources p rest = Except.ok cs2 ∧ cs = c :: cs2 := by
  cases h1 : checkPipelineSource p s with
  | error e => simp [checkSources, h1, bind, Except.bind] at h
  | ok c =>
    cases h2 : checkSources p rest with
    | error e => simp [checkSources, h1, h2, bind, Except.bind] at h
    | ok cs2 =>
      simp [checkSources, h1, h2, bind, Except.bind, pure, Except.pure] at h
      exact ⟨c, cs2, rfl, rfl, h.symm⟩

/-- Every source surviving the source loop comes from checking some
declared source. -/
theorem checkSources_ok_mem {p : Pipeline} {l cs : List Source}
    (h : checkSources p l = Except.ok cs) :
    ∀ x ∈ cs, ∃ s ∈ l, checkPipelineSource p s = Except.ok x := by
  induction l generalizing cs with
  | nil => simp [checkSources] at h; subst h; simp
  | cons s rest ih =>
    obtain ⟨c, cs2, h1, h2, rfl⟩ := checkSources_cons_inv h
    intro x hx
    rcases List.mem_cons.mp hx with rfl | hx2
    · exact ⟨s, List.mem_cons_self s rest, h1⟩
    · obtain ⟨s2, hs2, hc2⟩ := ih h2 x hx2
      exact ⟨s2, List.mem_cons_of_mem s hs2, hc2⟩

/-- When the source loop succeeds, every declared source passed the
check. -/
theorem checkSources_all_ok {p : Pipeline} {l cs : List Source}
    (h : checkSources p l = Except.ok cs) :
    ∀ s ∈ l, ∃ c, checkPipelineSource p s = Except.ok c := by
  induction l generalizing cs with
  | nil => simp
  | cons s rest ih =>
    obtain ⟨c, cs2, h1, h2, rfl⟩ := checkSources_cons_inv h
    intro x hx
    rcases List.mem_cons.mp hx with rfl | hx2
    · exact ⟨c, h1⟩
    · exact ih h2 x hx2

/-- A check error on the head source fails the loop with that error. -/
theorem checkSources_cons_error {p : Pipeline} {s : Source} {rest : List Source}
    {e : BuildError} (h : checkPipelineSource p s = Except.error e) :
    checkSources p (s :: rest) = Except.error e := by
  simp [checkSources, h, bind, Except.bind]

/-- An ok prefix shifts the source loop onto the remaining sources. -/
theorem checkSources_append_ok {p : Pipeline} {pre : List Source} {cs : List Source}
    (h : checkSources p pre = Except.ok cs) (rest : List Source) :
    checkSources p (pre ++ rest) =
      (checkSources p rest).map fun ds => cs ++ ds := by
  induction pre generalizing cs with
  | nil =>
    simp [checkSources] at h
    subst h
    cases h2 : checkSources p rest <;> simp [Except.map, h2]
  | cons s tl ih =>
    obtain ⟨c, cs2, h1, h2, rfl⟩ := checkSources_cons_inv h
    have := ih h2
    simp [checkSources, h1, this, bind, Except.bind, pure, Except.pure]
    cases h3 : checkSources p rest <;> simp [Except.map]

/-- Inversion of one step of the pipeline loop. -/
theorem getComponentsAux_cons_inv {p : Pipeline} {rest : List Pipeline}
    {t : List Source × List Transform × List Sink}
    (h : getComponentsAux (p :: rest) = Except.ok t) :
    ∃ cs u, checkSources p (getSources p) = Except.ok cs ∧
      getComponentsAux rest = Except.ok u ∧
      t = (cs ++ u.1, getTransforms p ++ u.2.1, getSinks p ++ u.2.2) := by
  cases h1 : checkSources p (getSources p) with
  | error e => simp [getComponentsAux, h1, bind, Except.bind] at h
  | ok cs =>
    cases h2 : getComponentsAux rest with
    | error e => simp [getComponentsAux, h1, h2, bind, Except.bind] at h
    | ok u =>
      refine ⟨cs, u, rfl, rfl, ?_⟩
      obtain ⟨u1, u2, u3⟩ := u
      simp [getComponentsAux, h1, h2, bind, Except.bind, pure, Except.pure] at h
      simp [← h]

/-- When the pipeline loop succeeds, the source loop of every pipeline
succeeded and its results are among the emitted sources. -/
theorem getComponentsAux_ok_mem {l : List Pipeline}
    {ss : List Source} {ts : List Transform} {ks : List Sink}
    (h : getComponentsAux l = Except.ok (ss, ts, ks)) :
    ∀ p ∈ l, ∃ cs, checkSources p (getSources p) = Except.ok cs ∧ ∀ c ∈ cs, c ∈ ss := by
  induction l generalizing ss ts ks with
  | nil => simp
  | cons q rest ih =>
    obtain ⟨cs, u, h1, h2, ht⟩ := getComponentsAux_cons_inv h
    obtain ⟨hss, -, -⟩ : ss = cs ++ u.1 ∧ ts = getTransforms q ++ u.2.1 ∧
        ks = getSinks q ++ u.2.2 := by
      simp [Prod.ext_iff] at ht
      simp_all
    intro p hp
    rcases List.mem_cons.mp hp with rfl | hp2
    · exact ⟨cs, h1, fun c hc => hss ▸ List.mem_append_left _ hc⟩
    · obtain ⟨cs2, hcs2, hmem⟩ := ih
        (show getComponentsAux rest = Except.ok (u.1, u.2.1, u.2.2) by simpa using h2) p hp2
      exact ⟨cs2, hcs2, fun c hc => hss ▸ List.mem_append_right _ (hmem c hc)⟩

/-- C4: for every namespaced pipeline, a cluster-log source declared
with no explicit namespace filter is assigned exactly the filter
implied by the own namespace of the pipeline during extraction; every
source surviving the source loop of a namespaced pipeline carries that
filter; and in every successful build those surviving sources are
exactly what the build emits for that pipeline, so every source a
namespaced pipeline contributes carries its own-namespace filter. -/
theorem c4_namespaced_tenancy :
    ∀ (p : Pipeline), p.kind ≠ PipelineKind.cluster →
      (∀ s : Source, s.type = KubernetesSourceType → s.extraNamespaceLabelSelector = "" →
        checkPipelineSource p s =
          Except.ok { s with extraNamespaceLabelSelector := NamespaceNameToLabel p.ns })
      ∧ (∀ ss, checkSources p (getSources p) = Except.ok ss →
          ∀ s ∈ ss, s.extraNamespaceLabelSelector = NamespaceNameToLabel p.ns)
      ∧ (∀ (b : Builder) comps, getComponents b = Except.ok comps → p ∈ b.pipelines →
          ∀ ss, checkSources p (getSources p) = Except.ok ss → ∀ s ∈ ss, s ∈ comps.1) := by
  intro p hk
  refine ⟨fun s ht hs => checkPipelineSource_default hk ht hs, ?_, ?_⟩
  · intro ss h s hs
    obtain ⟨s0, -, hok⟩ := checkSources_ok_mem h s hs
    exact (checkPipelineSource_ok_sel hk hok).2
  · intro b comps hb hp ss hss s hs
    obtain ⟨c1, c2, c3⟩ := comps
    obtain ⟨cs, hcs, hmem⟩ := getComponentsAux_ok_mem hb p hp
    rw [hss] at hcs
    cases hcs
    exact hmem s hs

/-- C4 witness: a namespaced pipeline declaring one bare cluster-log
source is emitted with exactly its own namespace filter. -/
theorem c4_namespaced_tenancy_witness :
    checkPipelineSource
      ⟨PipelineKind.namespaced, "team-a", "p", none, none, none⟩
      ⟨"team-a.p.src", "kubernetes_logs", "", "", "", none⟩ =
      Except.ok ⟨"team-a.p.src", "kubernetes_logs",
        "kubernetes.io/metadata.name=team-a", "", "", none⟩ := by
  have h := (c4_namespaced_tenancy ⟨PipelineKind.namespaced, "team-a", "p", none, none, none⟩
      (by decide)).1 ⟨"team-a.p.src", "kubernetes_logs", "", "", "", none⟩ (by decide) (by decide)
  simpa [NamespaceNameToLabel] using h

/-- A declared source whose check succeeds on a namespaced pipeline is
a cluster-log source whose namespace filter is empty or already its
own pipeline filter. -/
theorem checkPipelineSource_ok_orig {p : Pipeline} {s : Source}
    (hk : p.kind ≠ PipelineKind.cluster)
    (h : ∃ c, checkPipelineSource p s = Except.ok c) :
    s.type = KubernetesSourceType ∧
      (s.extraNamespaceLabelSelector = "" ∨
        s.extraNamespaceLabelSelector = NamespaceNameToLabel p.ns) := by
  obtain ⟨c, hc⟩ := h
  by_cases ht : s.type = KubernetesSourceType
  · refine ⟨ht, ?_⟩
    by_cases hs : s.extraNamespaceLabelSelector = ""
    · exact Or.inl hs
    · by_cases hw : s.extraNamespaceLabelSelector = NamespaceNameToLabel p.ns
      · exact Or.inr hw
      · rw [checkPipelineSource_badscope hk ht hs hw] at hc
        cases hc
  · rw [checkPipelineSource_badtype hk ht] at hc
    cases hc

/-- An erroring pipeline preceded by cleanly checking pipelines fails
the pipeline loop with the same error. -/
theorem getComponentsAux_prefix_error :
    ∀ (ppre : List Pipeline) (p : Pipeline) (post : List Pipeline) (e : BuildError),
      (∀ q ∈ ppre, ∃ r, checkSources q (getSources q) = Except.ok r) →
      checkSources p (getSources p) = Except.error e →
      getComponentsAux (ppre ++ p :: post) = Except.error e := by
  intro ppre
  induction ppre with
  | nil =>
    intro p post e _ hp
    simp [getComponentsAux, hp, bind, Except.bind]
  | cons q tl ih =>
    intro p post e hq hp
    obtain ⟨r, hr⟩ := hq q (List.mem_cons_self q tl)
    have htl := ih p post e (fun x hx => hq x (List.mem_cons_of_mem q hx)) hp
    simp [getComponentsAux, hr, htl, bind, Except.bind]

/-- C3: corrected form.  A component-extraction error always aborts the
build with that error and no partial configuration.  A successful
build certifies that no namespaced pipeline declared a non-cluster-log
source or a foreign namespace filter (so any such declaration fails the
build).  The error identity is determined by the first offending
source: when all sources before it check cleanly, a type-rule
violation fails the build with PipelineTypeError and a scope-rule
violation with PipelineScopeError, and an erroring pipeline preceded
by cleanly checking pipelines fails the whole build with exactly its
error. -/
theorem c3_scope_errors_amended :
    (∀ (b : Builder) (e : BuildError), getComponents b = Except.error e →
        generateVectorConfig b = Except.error e)
    ∧ (∀ (b : Builder) cfg, generateVectorConfig b = Except.ok cfg →
        ∀ p ∈ b.pipelines, p.kind ≠ PipelineKind.cluster →
          ∀ s ∈ getSources p, s.type = KubernetesSourceType ∧
            (s.extraNamespaceLabelSelector = "" ∨
              s.extraNamespaceLabelSelector = NamespaceNameToLabel p.ns))
    ∧ (∀ (p : Pipeline) (pre : List Source) (s : Source) (post : List Source),
        p.kind ≠ PipelineKind.cluster → getSources p = pre ++ s :: post →
        (∃ cs, checkSources p pre = Except.ok cs) →
          (s.type ≠ KubernetesSourceType →
            checkSources p (getSources p) = Except.error BuildError.pipelineTypeError)
          ∧ (s.type = KubernetesSourceType → s.extraNamespaceLabelSelector ≠ "" →
              s.extraNamespaceLabelSelector ≠ NamespaceNameToLabel p.ns →
              checkSources p (getSources p) = Except.error BuildError.pipelineScopeError))
    ∧ (∀ (b : Builder) (ppre : List Pipeline) (p : Pipeline) (post : List Pipeline)
          (e : BuildError),
        b.pipelines = ppre ++ p :: post →
        (∀ q ∈ ppre, ∃ r, checkSources q (getSources q) = Except.ok r) →
        checkSources p (getSources p) = Except.error e →
        generateVectorConfig b = Except.error e) := by
  have herr : ∀ (b : Builder) (e : BuildError), getComponents b = Except.error e →
      generateVectorConfig b = Except.error e := by
    intro b e h
    simp [generateVectorConfig, h]
  refine ⟨herr, ?_, ?_, ?_⟩
  · intro b cfg hok p hp hk s hs
    cases hg : getComponents b with
    | error e => simp [generateVectorConfig, hg] at hok
    | ok comps =>
      obtain ⟨c1, c2, c3⟩ := comps
      obtain ⟨cs, hcs, -⟩ := getComponentsAux_ok_mem hg p hp
      exact checkPipelineSource_ok_orig hk (checkSources_all_ok hcs s hs)
  · intro p pre s post hk hsrc hpre
    obtain ⟨cs, hcs⟩ := hpre
    have hsplit := checkSources_append_ok hcs (s :: post)
    constructor
    · intro ht
      rw [hsrc, hsplit, checkSources_cons_error (checkPipelineSource_badtype hk ht)]
      rfl
    · intro ht hs hw
      rw [hsrc, hsplit, checkSources_cons_error (checkPipelineSource_badscope hk ht hs hw)]
      rfl
  · intro b ppre p post e hb hq hp
    apply herr
    unfold getComponents
    rw [hb]
    exact getComponentsAux_prefix_error ppre p post e hq hp

/-- C3 amended witness: a namespaced pipeline declaring (only) a
non-cluster-log source fails the source loop with PipelineTypeError,
instantiating the first-offense conjunct with an empty clean prefix. -/
theorem c3_scope_errors_amended_witness :
    checkSources ⟨PipelineKind.namespaced, "ns1", "p",
        some [("a", ⟨"", "file", "", "", "", none⟩)], none, none⟩
      (getSources ⟨PipelineKind.namespaced, "ns1", "p",
        some [("a", ⟨"", "file", "", "", "", none⟩)], none, none⟩) =
      Except.error BuildError.pipelineTypeError := by
  exact (c3_scope_errors_amended.2.2.1
    ⟨PipelineKind.namespaced, "ns1", "p", some [("a", ⟨"", "file", "", "", "", none⟩)], none, none⟩
    [] ⟨"ns1.p.a", "file", "", "", "", none⟩ [] (by decide) (by decide)
    ⟨[], by decide⟩).1 (by decide)

/-!
Helper lemmas for the kubernetes-log merge pass.
-/

/-- A lookup succeeds exactly when the key occurs among the keys. -/
theorem lookup_isSome_iff {α β : Type} [BEq α] [LawfulBEq α] (l : List (α × β)) (k : α) :
    ((l.lookup k).isSome = true) ↔ k ∈ l.map Prod.fst := by
  induction l with
  | nil => simp [List.lookup]
  | cons x xs ih =>
    by_cases hk : k = x.1
    · simp [List.lookup, hk]
    · have hb : (k == x.1) = false := by simp [hk]
      simp [List.lookup, hb, ih, hk]

/-- A guarded filterMap is the filter followed by the map. -/
theorem filterMap_if_eq {α β : Type} (p : α → Bool) (f : α → β) (l : List α) :
    (l.filterMap fun a => if p a then some (f a) else none) = (l.filter p).map f := by
  induction l with
  | nil => simp
  | cons x xs ih => by_cases hx : p x <;> simp [hx, ih]

/-- The names of the sources the kubernetes-log merge pass retires. -/
def retiredNames (c : VectorConfig) : List String :=
  (c.sources.filter fun s => sourceEligible s).map Source.name

/-- The input rewrite of the kubernetes-log merge pass: a retired
source name becomes the route-addressed output of the routing
transform, every other input is unchanged. -/
def rwName (c : VectorConfig) (i : String) : String :=
  if i ∈ retiredNames c then MergedSourceTransformName ++ "." ++ i else i

/-- The routes table is the retired sources paired with their route
expressions. -/
theorem routesOf_eq (c : VectorConfig) :
    routesOf c = (c.sources.filter fun s => sourceEligible s).map
      fun s => (s.name, sourceRoute s) := by
  unfold routesOf
  exact filterMap_if_eq _ _ c.sources

/-- The keys of the routes table are the retired names. -/
theorem routesOf_keys (c : VectorConfig) :
    (routesOf c).map Prod.fst = retiredNames c := by
  rw [routesOf_eq, retiredNames, List.map_map]
  rfl

/-- The rewrite used inside mergeKubernetesSources agrees with
rwName. -/
theorem rw_eq_rwName (c : VectorConfig) (i : String) :
    (if ((routesOf c).lookup i).isSome then MergedSourceTransformName ++ "." ++ i else i)
      = rwName c i := by
  rw [rwName]
  by_cases hm : i ∈ retiredNames c
  · rw [if_pos ((lookup_isSome_iff _ _).mpr (by rw [routesOf_keys]; exact hm)), if_pos hm]
  · rw [if_neg (fun hs => hm (by rw [← routesOf_keys]; exact (lookup_isSome_iff _ _).mp hs)),
      if_neg hm]

/-- An eligible source makes the routes table non-empty. -/
theorem routesOf_pos {c : VectorConfig} {s : Source}
    (hs : s ∈ c.sources) (he : sourceEligible s = true) :
    0 < (routesOf c).length := by
  have hmem : (s.name, sourceRoute s) ∈ routesOf c := by
    rw [routesOf_eq]
    exact List.mem_map_of_mem _ (List.mem_filter.mpr ⟨hs, he⟩)
  exact List.length_pos.mpr (List.ne_nil_of_mem hmem)

/-- The routing transform the kubernetes-log merge pass appends. -/
def routeTransformOf (c : VectorConfig) : Transform :=
  { name := MergedSourceTransformName, type := RouteTransformType,
    inputs := [MergedKubernetesSourceName], route := routesOf c }

/-- The one eligible source and companion sink used to witness the
merge-pass claims. -/
def eligibleWitnessSource : Source :=
  { name := "ns1.p.a", type := "kubernetes_logs", extraNamespaceLabelSelector := "team=x",
    extraLabelSelector := "app=foo", extraFieldSelector := "", options := none }

/-- A configuration holding eligibleWitnessSource and a sink naming
it. -/
def eligibleWitnessConfig : VectorConfig :=
  { sources := [eligibleWitnessSource], transforms := [],
    sinks := [{ name := "ns1.p.k", type := "loki", inputs := ["ns1.p.a"],
                options := none, optionsHash := "h" }] }

/-- A configuration holding only eligibleWitnessSource. -/
def eligibleOnlyConfig : VectorConfig :=
  { sources := [eligibleWitnessSource], transforms := [], sinks := [] }

/-- C7: when no source is eligible the kubernetes-log merge pass leaves
the configuration unchanged; when at least one source is eligible,
every sink and every pre-existing transform has each input that named a
retired source rewritten to exactly the route-addressed name, and the
routing transform carries, for a retired source with pod-label selector
app=foo and namespace-label selector team=x, exactly the claimed route
expression. -/
theorem c7_kubernetes_merge :
    (∀ cfg : VectorConfig, (∀ s ∈ cfg.sources, sourceEligible s = false) →
        mergeKubernetesSources cfg = cfg)
    ∧ (∀ (cfg : VectorConfig) (s : Source), s ∈ cfg.sources → sourceEligible s = true →
        (mergeKubernetesSources cfg).sinks =
            cfg.sinks.map (fun k => { k with inputs := k.inputs.map (rwName cfg) })
          ∧ ∀ t ∈ cfg.transforms,
              { t with inputs := t.inputs.map (rwName cfg) } ∈
                (mergeKubernetesSources cfg).transforms)
    ∧ (∀ (cfg : VectorConfig) (s : Source), s ∈ cfg.sources → sourceEligible s = true →
        s.extraLabelSelector = "app=foo" → s.extraNamespaceLabelSelector = "team=x" →
        ∃ t ∈ (mergeKubernetesSources cfg).transforms,
          t.name = MergedSourceTransformName ∧
          (s.name,
            ".kubernetes.pod_labels.\"app\" == \"foo\"&&.kubernetes.namespace_labels.\"team\" == \"x\"")
            ∈ t.route) := by
  have hfun : ∀ cfg : VectorConfig,
      (fun i => if ((routesOf cfg).lookup i).isSome then
        MergedSourceTransformName ++ "." ++ i else i) = rwName cfg :=
    fun cfg => funext (rw_eq_rwName cfg)
  refine ⟨?_, ?_, ?_⟩
  · intro cfg hall
    have hr : routesOf cfg = [] := by
      rw [routesOf_eq]
      have hnil : cfg.sources.filter (fun s => sourceEligible s) = [] := by
        rw [List.filter_eq_nil_iff]
        intro a ha
        simp [hall a ha]
      rw [hnil]
      rfl
    unfold mergeKubernetesSources
    rw [hr]
    simp
  · intro cfg s hs he
    have hpos := routesOf_pos hs he
    constructor
    · show (mergeKubernetesSources cfg).sinks = _
      unfold mergeKubernetesSources
      rw [if_pos hpos]
      simp only [hfun cfg]
    · intro t ht
      unfold mergeKubernetesSources
      rw [if_pos hpos]
      simp only [hfun cfg]
      exact List.mem_append_left _ (List.mem_map_of_mem _ ht)
  · intro cfg s hs he hpod hns
    have hpos := routesOf_pos hs he
    refine ⟨routeTransformOf cfg, ?_, rfl, ?_⟩
    · unfold mergeKubernetesSources
      rw [if_pos hpos]
      simp [routeTransformOf]
    · have hmem : (s.name, sourceRoute s) ∈ routesOf cfg := by
        rw [routesOf_eq]
        exact List.mem_map_of_mem _ (List.mem_filter.mpr ⟨hs, he⟩)
      have hval : sourceRoute s =
          ".kubernetes.pod_labels.\"app\" == \"foo\"&&.kubernetes.namespace_labels.\"team\" == \"x\"" := by
        rw [sourceRoute, hpod, hns]
        decide
      exact hval ▸ hmem

/-- C7 witness: the no-op conjunct on the empty configuration and the
rewrite conjunct at the eligible witness configuration. -/
theorem c7_kubernetes_merge_witness :
    mergeKubernetesSources ⟨[], [], []⟩ = ⟨[], [], []⟩
    ∧ (mergeKubernetesSources eligibleWitnessConfig).sinks =
      [{ name := "ns1.p.k", type := "loki", inputs := ["merged.ns1.p.a"],
         options := none, optionsHash := "h" }] := by
  constructor
  · exact c7_kubernetes_merge.1 ⟨[], [], []⟩ (by simp)
  · have h := (c7_kubernetes_merge.2.1 eligibleWitnessConfig eligibleWitnessSource
      (by decide) (by decide)).1
    rw [h]
    decide

/-- C10: whenever at least one source is eligible, the shared source
the kubernetes-log merge pass emits is the last emitted source and
carries only the fixed name and the kubernetes-log type, with empty
namespace-label, pod-label and field selectors and no options; every
other emitted source is non-eligible; and the retired sources survive
only as the route entries of the routing transform, whose table is exactly
the retired sources paired with their synthesized filter
expressions. -/
theorem c10_merged_source_unfiltered :
    ∀ (cfg : VectorConfig) (s : Source), s ∈ cfg.sources → sourceEligible s = true →
      (mergeKubernetesSources cfg).sources.getLast? =
          some ⟨MergedKubernetesSourceName, KubernetesSourceType, "", "", "", none⟩
      ∧ (∀ x ∈ (mergeKubernetesSources cfg).sources.dropLast, sourceEligible x = false)
      ∧ ∃ t ∈ (mergeKubernetesSources cfg).transforms,
          t.name = MergedSourceTransformName ∧
          t.route = (cfg.sources.filter fun x => sourceEligible x).map
            (fun x => (x.name, sourceRoute x)) := by
  intro cfg s hs he
  have hpos := routesOf_pos hs he
  have hsrc : (mergeKubernetesSources cfg).sources =
      (cfg.sources.filter fun x => ¬ sourceEligible x) ++
        [⟨MergedKubernetesSourceName, KubernetesSourceType, "", "", "", none⟩] := by
    unfold mergeKubernetesSources
    rw [if_pos hpos]
  refine ⟨?_, ?_, ?_⟩
  · rw [hsrc]
    simp
  · intro x hx
    rw [hsrc, List.dropLast_concat] at hx
    have hfx := (List.mem_filter.mp hx).2
    simpa using hfx
  · refine ⟨routeTransformOf cfg, ?_, rfl, ?_⟩
    · unfold mergeKubernetesSources
      rw [if_pos hpos]
      simp [routeTransformOf]
    · exact routesOf_eq cfg

/-- C10 witness: instantiated at a configuration holding exactly one
eligible source. -/
theorem c10_merged_source_unfiltered_witness :
    (mergeKubernetesSources eligibleOnlyConfig).sources.getLast? =
      some ⟨MergedKubernetesSourceName, KubernetesSourceType, "", "", "", none⟩ :=
  (c10_merged_source_unfiltered eligibleOnlyConfig eligibleWitnessSource
    (by decide) (by decide)).1

/-!
Helper lemmas for reference integrity (claim C5).
-/

/-- The shared source the kubernetes-log merge pass appends. -/
def mergedSourceDef : Source :=
  { name := MergedKubernetesSourceName, type := KubernetesSourceType,
    extraNamespaceLabelSelector := "", extraLabelSelector := "",
    extraFieldSelector := "", options := none }

/-- Structural form of the kubernetes-log merge pass when at least one
source is eligible. -/
theorem mergeK8s_pos (cfg : VectorConfig) (hpos : 0 < (routesOf cfg).length) :
    mergeKubernetesSources cfg =
      { sources := (cfg.sources.filter fun s => ¬ sourceEligible s) ++ [mergedSourceDef],
        transforms :=
          (cfg.transforms.map fun t => { t with inputs := t.inputs.map (rwName cfg) }) ++
            [routeTransformOf cfg],
        sinks := cfg.sinks.map fun k => { k with inputs := k.inputs.map (rwName cfg) } } := by
  have hfun : (fun i => if ((routesOf cfg).lookup i).isSome then
      MergedSourceTransformName ++ "." ++ i else i) = rwName cfg :=
    funext (rw_eq_rwName cfg)
  unfold mergeKubernetesSources
  rw [if_pos hpos]
  simp only [hfun]
  rfl

/-- The resolution invariant in membership form. -/
theorem resolvesOk_iff (c : VectorConfig) :
    resolvesOk c = true ↔
      (∀ t ∈ c.transforms, ∀ i ∈ t.inputs, i ∈ refNames c) ∧
        (∀ s ∈ c.sinks, ∀ i ∈ s.inputs, i ∈ refNames c) := by
  simp [resolvesOk, inputOk, List.all_eq_true]

/-- A non-retired legal name is still legal after the kubernetes-log
merge pass. -/
theorem refNames_merge_keep {cfg : VectorConfig} (hpos : 0 < (routesOf cfg).length)
    {i : String} (hi : i ∈ refNames cfg) (hnr : i ∉ retiredNames cfg) :
    i ∈ refNames (mergeKubernetesSources cfg) := by
  rw [mergeK8s_pos cfg hpos]
  rw [refNames] at hi
  rw [refNames]
  rcases List.mem_append.mp hi with h12 | haddr
  · rcases List.mem_append.mp h12 with hsrcn | htrn
    · obtain ⟨s0, hs0, rfl⟩ := List.mem_map.mp hsrcn
      by_cases he : sourceEligible s0
      · exact absurd (List.mem_map_of_mem _ (List.mem_filter.mpr ⟨hs0, he⟩)) hnr
      · apply List.mem_append_left
        apply List.mem_append_left
        exact List.mem_map_of_mem _ (List.mem_append_left _
          (List.mem_filter.mpr ⟨hs0, by simpa using he⟩))
    · obtain ⟨t, ht, rfl⟩ := List.mem_map.mp htrn
      apply List.mem_append_left
      apply List.mem_append_right
      apply List.mem_map.mpr
      exact ⟨{ t with inputs := t.inputs.map (rwName cfg) },
        List.mem_append_left _ (List.mem_map_of_mem _ ht), rfl⟩
  · obtain ⟨L, hL, hiL⟩ := List.mem_flatten.mp haddr
    obtain ⟨t, ht, rfl⟩ := List.mem_map.mp hL
    apply List.mem_append_right
    apply List.mem_flatten.mpr
    refine ⟨t.route.map fun r => t.name ++ "." ++ r.1, ?_, hiL⟩
    apply List.mem_map.mpr
    exact ⟨{ t with inputs := t.inputs.map (rwName cfg) },
      List.mem_append_left _ (List.mem_map_of_mem _ ht), rfl⟩

/-- A retired name rewritten to its route-addressed form is legal after
the kubernetes-log merge pass. -/
theorem refNames_merge_retired {cfg : VectorConfig} (hpos : 0 < (routesOf cfg).length)
    {i : String} (hr : i ∈ retiredNames cfg) :
    MergedSourceTransformName ++ "." ++ i ∈ refNames (mergeKubernetesSources cfg) := by
  rw [mergeK8s_pos cfg hpos, refNames]
  apply List.mem_append_right
  apply List.mem_flatten.mpr
  refine ⟨(routesOf cfg).map fun r => MergedSourceTransformName ++ "." ++ r.1, ?_, ?_⟩
  · apply List.mem_map.mpr
    exact ⟨routeTransformOf cfg, List.mem_append_right _ (List.mem_singleton.mpr rfl), rfl⟩
  · rw [← routesOf_keys] at hr
    obtain ⟨k, hk, rfl⟩ := List.mem_map.mp hr
    exact List.mem_map_of_mem _ hk

/-- The shared source name is legal after the kubernetes-log merge
pass. -/
theorem refNames_merge_shared {cfg : VectorConfig} (hpos : 0 < (routesOf cfg).length) :
    MergedKubernetesSourceName ∈ refNames (mergeKubernetesSources cfg) := by
  rw [mergeK8s_pos cfg hpos, refNames]
  apply List.mem_append_left
  apply List.mem_append_left
  exact List.mem_map.mpr ⟨mergedSourceDef,
    List.mem_append_right _ (List.mem_singleton.mpr rfl), rfl⟩

/-- The kubernetes-log merge pass preserves the resolution
invariant. -/
theorem resolvesOk_mergeK8s (cfg : VectorConfig) (h : resolvesOk cfg = true) :
    resolvesOk (mergeKubernetesSources cfg) = true := by
  by_cases hpos : 0 < (routesOf cfg).length
  · rw [resolvesOk_iff] at h
    obtain ⟨hT, hK⟩ := h
    rw [resolvesOk_iff]
    have hrw : ∀ (i : String), i ∈ refNames cfg →
        rwName cfg i ∈ refNames (mergeKubernetesSources cfg) := by
      intro i hi
      by_cases hr : i ∈ retiredNames cfg
      · rw [rwName, if_pos hr]
        exact refNames_merge_retired hpos hr
      · rw [rwName, if_neg hr]
        exact refNames_merge_keep hpos hi hr
    constructor
    · intro t ht
      have htr : (mergeKubernetesSources cfg).transforms =
          (cfg.transforms.map fun t => { t with inputs := t.inputs.map (rwName cfg) }) ++
            [routeTransformOf cfg] := by rw [mergeK8s_pos cfg hpos]
      rw [htr] at ht
      rcases List.mem_append.mp ht with hmap | hlast
      · obtain ⟨t0, ht0, rfl⟩ := List.mem_map.mp hmap
        intro j hj
        obtain ⟨i, hi, rfl⟩ := List.mem_map.mp hj
        exact hrw i (hT t0 ht0 i hi)
      · rw [List.mem_singleton.mp hlast]
        intro j hj
        rw [routeTransformOf] at hj
        rw [List.mem_singleton.mp hj]
        exact refNames_merge_shared hpos
    · intro k hk
      have hsk : (mergeKubernetesSources cfg).sinks =
          cfg.sinks.map fun k => { k with inputs := k.inputs.map (rwName cfg) } := by
        rw [mergeK8s_pos cfg hpos]
      rw [hsk] at hk
      obtain ⟨k0, hk0, rfl⟩ := List.mem_map.mp hk
      intro j hj
      obtain ⟨i, hi, rfl⟩ := List.mem_map.mp hj
      exact hrw i (hK k0 hk0 i hi)
  · unfold mergeKubernetesSources
    rw [if_neg hpos]
    exact h

/-- Membership through the insertion step of the string sort. -/
theorem mem_insertSorted {x y : String} :
    ∀ {l : List String}, y ∈ insertSorted x l ↔ y = x ∨ y ∈ l := by
  intro l
  induction l with
  | nil => simp [insertSorted]
  | cons a as ih =>
    by_cases hx : x ≤ a
    · simp [insertSorted, hx]
    · simp [insertSorted, hx, ih]
      tauto

/-- The string sort preserves membership. -/
theorem mem_sortStrings {y : String} : ∀ {l : List String}, y ∈ sortStrings l ↔ y ∈ l := by
  intro l
  induction l with
  | nil => simp [sortStrings]
  | cons a as ih =>
    show y ∈ insertSorted a (sortStrings as) ↔ _
    rw [mem_insertSorted, ih]
    simp

/-- Every input of every sink kept by the sink merge loop was an input
of some processed or pre-existing sink. -/
theorem mergeStep_fold_inputs {P : String → Prop} :
    ∀ (l : List Sink) (m : List Sink) (u : List (String × Nat)),
      (∀ s ∈ m, ∀ i ∈ s.inputs, P i) → (∀ s ∈ l, ∀ i ∈ s.inputs, P i) →
      ∀ s ∈ (l.foldl mergeStep (m, u)).1, ∀ i ∈ s.inputs, P i := by
  intro l
  induction l with
  | nil =>
    intro m u hm _
    simpa using hm
  | cons x xs ih =>
    intro m u hm hl
    have hx : ∀ i ∈ x.inputs, P i := hl x (List.mem_cons_self x xs)
    have hxs : ∀ s ∈ xs, ∀ i ∈ s.inputs, P i := fun s hs => hl s (List.mem_cons_of_mem x hs)
    rw [List.foldl_cons]
    have happend : ∀ s ∈ m ++ [x], ∀ i ∈ s.inputs, P i := by
      intro s hs
      rcases List.mem_append.mp hs with h1 | h2
      · exact hm s h1
      · rw [List.mem_singleton.mp h2]
        exact hx
    cases hlook : u.lookup x.optionsHash with
    | none =>
      simp only [mergeStep, hlook]
      exact ih (m ++ [x]) _ happend hxs
    | some idx =>
      cases hget : m[idx]? with
      | none =>
        simp only [mergeStep, hlook, hget]
        exact ih (m ++ [x]) _ happend hxs
      | some v =>
        by_cases htyp : x.type = v.type
        · simp only [mergeStep, hlook, hget, if_pos htyp]
          apply ih
          · intro s hs
            rcases List.mem_or_eq_of_mem_set hs with h1 | h2
            · exact hm s h1
            · rw [h2]
              intro i hi
              rcases List.mem_append.mp (mem_sortStrings.mp hi) with hv | hxx
              · exact hm v (List.getElem?_mem hget) i hv
              · exact hx i hxx
          · exact hxs
        · simp only [mergeStep, hlook, hget, if_neg htyp]
          exact ih (m ++ [x]) _ happend hxs

/-- The sink merge pass only reuses inputs of the incoming sinks. -/
theorem mergeSinkList_inputs {P : String → Prop} (l : List Sink)
    (h : ∀ s ∈ l, ∀ i ∈ s.inputs, P i) :
    ∀ s ∈ mergeSinkList l, ∀ i ∈ s.inputs, P i := by
  show ∀ s ∈ (if 0 < ((l.foldl mergeStep ([], [])).1).length
      then (l.foldl mergeStep ([], [])).1 else l), ∀ i ∈ s.inputs, P i
  split
  · exact mergeStep_fold_inputs l [] [] (by simp) h
  · exact h

/-- The sink merge pass preserves the resolution invariant. -/
theorem resolvesOk_mergeSyncs (cfg : VectorConfig) (h : resolvesOk cfg = true) :
    resolvesOk (mergeSyncs cfg) = true := by
  rw [resolvesOk_iff] at h
  obtain ⟨hT, hK⟩ := h
  rw [resolvesOk_iff]
  refine ⟨fun t ht => hT t ht, ?_⟩
  intro s hs
  exact mergeSinkList_inputs cfg.sinks hK s hs

/-- C5: corrected form.  Both merge passes preserve the
reference-integrity invariant: whenever every transform and sink input
resolves before a merge pass, every input still resolves after it.
And when the extraction yields no components at all, the injected
default discard sink is wired to the injected default source, which is
then present, so the assembled configuration resolves. -/
theorem c5_inputs_resolution_amended :
    (∀ cfg : VectorConfig, resolvesOk cfg = true →
        resolvesOk (mergeKubernetesSources cfg) = true)
    ∧ (∀ cfg : VectorConfig, resolvesOk cfg = true →
        resolvesOk (mergeSyncs cfg) = true)
    ∧ (∀ b : Builder, b.agent.internalMetrics = false →
        getComponents b = Except.ok ([], [], []) →
        generateVectorConfig b = Except.ok ⟨[sourceDefault], [], [sinkDefault]⟩
          ∧ sinkDefault.inputs = [sourceDefault.name]
          ∧ resolvesOk ⟨[sourceDefault], [], [sinkDefault]⟩ = true) := by
  refine ⟨resolvesOk_mergeK8s, resolvesOk_mergeSyncs, ?_⟩
  intro b him hcomp
  refine ⟨?_, by decide, by decide⟩
  rw [generateVectorConfig, hcomp]
  cases h1 : b.agent.mergeKubernetesSources <;> cases h2 : b.agent.mergeSinks <;>
    simp [assembleConfig, him, h1, h2] <;> decide

/-- C5 amended witness: the merge passes preserve resolution on a
concrete resolving configuration, and the zero-component default case
at a builder with one empty pipeline. -/
theorem c5_inputs_resolution_amended_witness :
    resolvesOk (mergeKubernetesSources eligibleWitnessConfig) = true
    ∧ resolvesOk (mergeSyncs eligibleWitnessConfig) = true
    ∧ generateVectorConfig ⟨⟨false, false, false⟩,
        [⟨PipelineKind.cluster, "n", "p", none, none, none⟩]⟩ =
      Except.ok ⟨[sourceDefault], [], [sinkDefault]⟩ := by
  refine ⟨c5_inputs_resolution_amended.1 eligibleWitnessConfig (by decide),
    c5_inputs_resolution_amended.2.1 eligibleWitnessConfig (by decide),
    (c5_inputs_resolution_amended.2.2 ⟨⟨false, false, false⟩,
      [⟨PipelineKind.cluster, "n", "p", none, none, none⟩]⟩ (by decide) (by decide)).1⟩

/-!
Helper machinery for sink merge idempotence (claim C8).  The uniqOpts
table a finished merge pass leaves behind binds every options hash to
the last kept sink carrying it, and any two kept sinks that share an
options hash with no kept sink of that hash between them differ in
type; under that shape a second pass keeps every sink unchanged.
-/

/-- The uniqOpts table obtained by appending every sink of l, in order,
after an existing kept list m with table u. -/
def accU (u : List (String × Nat)) (m l : List Sink) : List (String × Nat) :=
  match l with
  | [] => u
  | x :: xs => accU ((x.optionsHash, m.length) :: u) (m ++ [x]) xs

/-- The pending sinks l can be processed from state (m, u) without any
merge: whenever the table binds the options hash of the head, the bound kept
sink has a different type, recursively. -/
def SepTypes : List (String × Nat) → List Sink → List Sink → Prop
  | _, _, [] => True
  | u, m, x :: xs =>
    (∀ idx, u.lookup x.optionsHash = some idx → ∀ v, m[idx]? = some v → v.type ≠ x.type)
    ∧ SepTypes ((x.optionsHash, m.length) :: u) (m ++ [x]) xs

/-- Under SepTypes the merge fold appends every pending sink
unchanged. -/
theorem sepTypes_foldl : ∀ (l : List Sink) (u : List (String × Nat)) (m : List Sink),
    SepTypes u m l → l.foldl mergeStep (m, u) = (m ++ l, accU u m l) := by
  intro l
  induction l with
  | nil =>
    intro u m _
    simp [accU]
  | cons x xs ih =>
    intro u m h
    obtain ⟨hx, hrec⟩ := h
    have hstep : mergeStep (m, u) x = (m ++ [x], (x.optionsHash, m.length) :: u) := by
      cases hlook : u.lookup x.optionsHash with
      | none => simp [mergeStep, hlook]
      | some idx =>
        cases hget : m[idx]? with
        | none => simp [mergeStep, hlook, hget]
        | some v =>
          have hne : ¬ (x.type = v.type) := fun he => hx idx hlook v hget he.symm
          simp [mergeStep, hlook, hget, if_neg hne]
    rw [List.foldl_cons, hstep, ih _ _ hrec]
    simp [accU]

/-- Appending one sink extends the table with a binding at the new last
position. -/
theorem accU_concat : ∀ (l : List Sink) (u : List (String × Nat)) (m : List Sink) (x : Sink),
    accU u m (l ++ [x]) = (x.optionsHash, m.length + l.length) :: accU u m l := by
  intro l
  induction l with
  | nil =>
    intro u m x
    simp [accU]
  | cons y ys ih =>
    intro u m x
    show accU ((y.optionsHash, m.length) :: u) (m ++ [y]) (ys ++ [x]) = _
    rw [ih]
    simp [accU]
    omega

/-- The table only depends on the hash skeleton of the processed sinks
and the length of the pre-existing kept list. -/
theorem accU_congr : ∀ (l l' : List Sink) (u : List (String × Nat)) (m m' : List Sink),
    l.map Sink.optionsHash = l'.map Sink.optionsHash → m.length = m'.length →
    accU u m l = accU u m' l' := by
  intro l
  induction l with
  | nil =>
    intro l' u m m' hmap _
    cases l' with
    | nil => rfl
    | cons b bs => simp at hmap
  | cons x xs ih =>
    intro l' u m m' hmap hlen
    cases l' with
    | nil => simp at hmap
    | cons x' xs' =>
      simp at hmap
      obtain ⟨hhash, htail⟩ := hmap
      show accU ((x.optionsHash, m.length) :: u) (m ++ [x]) xs = _
      rw [hhash, hlen]
      exact ih xs' _ (m ++ [x]) (m' ++ [x']) htail (by simp [hlen])

/-- The hash-and-type skeleton of a sink. -/
def sinkSkel (s : Sink) : String × String :=
  (s.optionsHash, s.type)

/-- SepTypes only depends on the hash-and-type skeletons. -/
theorem sepTypes_congr : ∀ (l l' : List Sink) (u : List (String × Nat)) (m m' : List Sink),
    l.map sinkSkel = l'.map sinkSkel → m.map sinkSkel = m'.map sinkSkel →
    (SepTypes u m l ↔ SepTypes u m' l') := by
  intro l
  induction l with
  | nil =>
    intro l' u m m' hmap _
    cases l' with
    | nil => exact Iff.rfl
    | cons b bs => simp at hmap
  | cons x xs ih =>
    intro l' u m m' hmap hm
    cases l' with
    | nil => simp at hmap
    | cons x' xs' =>
      simp at hmap
      obtain ⟨hskel, htail⟩ := hmap
      have hhash : x.optionsHash = x'.optionsHash := congrArg Prod.fst hskel
      have htype : x.type = x'.type := congrArg Prod.snd hskel
      have hlen : m.length = m'.length := by
        have := congrArg List.length hm
        simpa using this
      have hget : ∀ idx : Nat, (m[idx]?).map sinkSkel = (m'[idx]?).map sinkSkel := by
        intro idx
        have hx : (m.map sinkSkel)[idx]? = (m'.map sinkSkel)[idx]? := by rw [hm]
        simpa [List.getElem?_map] using hx
      show (_ ∧ SepTypes ((x.optionsHash, m.length) :: u) (m ++ [x]) xs) ↔
        (_ ∧ SepTypes ((x'.optionsHash, m'.length) :: u) (m' ++ [x']) xs')
      have hsec : SepTypes ((x.optionsHash, m.length) :: u) (m ++ [x]) xs ↔
          SepTypes ((x'.optionsHash, m'.length) :: u) (m' ++ [x']) xs' := by
        rw [hhash, hlen]
        exact ih xs' _ (m ++ [x]) (m' ++ [x']) htail (by simp [hm, hskel])
      constructor
      · intro ⟨h1, h2⟩
        refine ⟨?_, hsec.mp h2⟩
        intro idx hidx v' hv'
        rw [← hhash] at hidx
        have h1i := h1 idx hidx
        have := hget idx
        rw [hv'] at this
        cases hmv : m[idx]? with
        | none => rw [hmv] at this; simp at this
        | some v =>
          rw [hmv] at this
          simp [sinkSkel] at this
          have hvt : v.type = v'.type := this.2
          rw [← htype, ← hvt]
          exact h1i v hmv
      · intro ⟨h1, h2⟩
        refine ⟨?_, hsec.mpr h2⟩
        intro idx hidx v hv
        rw [hhash] at hidx
        have h1i := h1 idx hidx
        have := hget idx
        rw [hv] at this
        cases hmv : m'[idx]? with
        | none => rw [hmv] at this; simp at this
        | some v' =>
          rw [hmv] at this
          simp [sinkSkel] at this
          have hvt : v.type = v'.type := this.2
          rw [htype, hvt]
          exact h1i v' hmv

/-- Setting a position to the value it already holds is the
identity. -/
theorem set_of_getElem? {α : Type} : ∀ {l : List α} {i : Nat} {a : α},
    l[i]? = some a → l.set i a = l := by
  intro l
  induction l with
  | nil => intro i a h; simp at h
  | cons x xs ih =>
    intro i a h
    cases i with
    | zero =>
      simp at h
      simp [h]
    | succ n =>
      simp at h
      simp [ih h]

/-- Splitting SepTypes at the last pending sink. -/
theorem sepTypes_append_one : ∀ (l : List Sink) (u : List (String × Nat)) (m : List Sink)
    (x : Sink),
    SepTypes u m (l ++ [x]) ↔
      SepTypes u m l ∧ (∀ idx, (accU u m l).lookup x.optionsHash = some idx →
        ∀ v, (m ++ l)[idx]? = some v → v.type ≠ x.type) := by
  intro l
  induction l with
  | nil =>
    intro u m x
    simp [SepTypes, accU]
  | cons y ys ih =>
    intro u m x
    show (_ ∧ SepTypes ((y.optionsHash, m.length) :: u) (m ++ [y]) (ys ++ [x])) ↔ _
    rw [ih]
    have hm : (m ++ [y]) ++ ys = m ++ y :: ys := by simp
    rw [hm]
    show _ ↔ (_ ∧ SepTypes ((y.optionsHash, m.length) :: u) (m ++ [y]) ys) ∧ _
    have hacc : accU ((y.optionsHash, m.length) :: u) (m ++ [y]) ys = accU u m (y :: ys) := rfl
    rw [hacc, and_assoc]

/-- The invariant carried through the first merge pass: the table is
exactly the table of the kept list, and the kept list admits no further
merging. -/
def PassInv (m : List Sink) (u : List (String × Nat)) : Prop :=
  u = accU [] [] m ∧ SepTypes [] [] m

/-- One merge step preserves the invariant. -/
theorem passInv_step (x : Sink) {m : List Sink} {u : List (String × Nat)}
    (h : PassInv m u) : PassInv (mergeStep (m, u) x).1 (mergeStep (m, u) x).2 := by
  obtain ⟨hu, hsep⟩ := h
  have happend : (∀ idx, u.lookup x.optionsHash = some idx →
      ∀ v, m[idx]? = some v → v.type ≠ x.type) →
      PassInv (m ++ [x]) ((x.optionsHash, m.length) :: u) := by
    intro hcond
    constructor
    · rw [accU_concat]
      simp only [List.length_nil, Nat.zero_add]
      rw [← hu]
    · rw [sepTypes_append_one]
      refine ⟨hsep, ?_⟩
      intro idx hidx v hv
      rw [← hu] at hidx
      exact hcond idx hidx v (by simpa using hv)
  cases hlook : u.lookup x.optionsHash with
  | none =>
    have hstep : mergeStep (m, u) x = (m ++ [x], (x.optionsHash, m.length) :: u) := by
      simp [mergeStep, hlook]
    rw [hstep]
    apply happend
    intro idx hidx
    rw [hlook] at hidx
    cases hidx
  | some idx =>
    cases hget : m[idx]? with
    | none =>
      have hstep : mergeStep (m, u) x = (m ++ [x], (x.optionsHash, m.length) :: u) := by
        simp [mergeStep, hlook, hget]
      rw [hstep]
      apply happend
      intro idx2 hidx2 v hv
      rw [hlook] at hidx2
      cases Option.some.inj hidx2
      rw [hget] at hv
      cases hv
    | some v =>
      by_cases htyp : x.type = v.type
      · have hstep : mergeStep (m, u) x = (m.set idx (mergedSinkOf v x), u) := by
          simp [mergeStep, hlook, hget, if_pos htyp]
        rw [hstep]
        have hhash : (m.set idx (mergedSinkOf v x)).map Sink.optionsHash =
            m.map Sink.optionsHash := by
          rw [List.map_set]
          apply set_of_getElem?
          rw [List.getElem?_map, hget]
          rfl
        have hskel : (m.set idx (mergedSinkOf v x)).map sinkSkel = m.map sinkSkel := by
          rw [List.map_set]
          apply set_of_getElem?
          rw [List.getElem?_map, hget]
          rfl
        constructor
        · rw [hu]
          exact (accU_congr m _ [] [] [] hhash.symm rfl)
        · exact (sepTypes_congr _ m [] [] [] hskel rfl).mpr hsep
      · have hstep : mergeStep (m, u) x = (m ++ [x], (x.optionsHash, m.length) :: u) := by
          simp [mergeStep, hlook, hget, if_neg htyp]
        rw [hstep]
        apply happend
        intro idx2 hidx2 v0 hv0
        rw [hlook] at hidx2
        cases Option.some.inj hidx2
        rw [hget] at hv0
        cases Option.some.inj hv0
        exact fun heq => htyp heq.symm

/-- The invariant holds after folding the merge loop from an invariant
state. -/
theorem passInv_foldl : ∀ (l : List Sink) (m : List Sink) (u : List (String × Nat)),
    PassInv m u → PassInv ((l.foldl mergeStep (m, u)).1) ((l.foldl mergeStep (m, u)).2) := by
  intro l
  induction l with
  | nil => intro m u h; exact h
  | cons x xs ih =>
    intro m u h
    rw [List.foldl_cons]
    exact ih (mergeStep (m, u) x).1 (mergeStep (m, u) x).2 (passInv_step x h)

/-- The merge fold never shrinks the kept list. -/
theorem foldl_mergeStep_length : ∀ (l : List Sink) (m : List Sink) (u : List (String × Nat)),
    m.length ≤ ((l.foldl mergeStep (m, u)).1).length := by
  intro l
  induction l with
  | nil => intro m u; simp
  | cons x xs ih =>
    intro m u
    rw [List.foldl_cons]
    have hstep : m.length ≤ ((mergeStep (m, u) x).1).length := by
      cases hlook : u.lookup x.optionsHash with
      | none => simp [mergeStep, hlook]
      | some idx =>
        cases hget : m[idx]? with
        | none => simp [mergeStep, hlook, hget]
        | some v =>
          by_cases htyp : x.type = v.type
          · simp [mergeStep, hlook, hget, if_pos htyp]
          · simp [mergeStep, hlook, hget, if_neg htyp]
    calc m.length ≤ ((mergeStep (m, u) x).1).length := hstep
      _ ≤ _ := ih (mergeStep (m, u) x).1 (mergeStep (m, u) x).2

/-- C8: the sink merge pass is idempotent, both on sink lists and on
whole configurations, and two sinks with the same options hash but
different types are never merged: both survive the pass unchanged. -/
theorem c8_sink_merge_idempotent :
    (∀ l : List Sink, mergeSinkList (mergeSinkList l) = mergeSinkList l)
    ∧ (∀ cfg : VectorConfig, mergeSyncs (mergeSyncs cfg) = mergeSyncs cfg)
    ∧ (∀ a b : Sink, a.optionsHash = b.optionsHash → a.type ≠ b.type →
        mergeSinkList [a, b] = [a, b]) := by
  have hidem : ∀ l : List Sink, mergeSinkList (mergeSinkList l) = mergeSinkList l := by
    intro l
    cases l with
    | nil => rfl
    | cons x xs =>
      have hlen : 0 < (((x :: xs).foldl mergeStep ([], [])).1).length := by
        have h1 : mergeStep (([] : List Sink), ([] : List (String × Nat))) x =
            ([x], [(x.optionsHash, 0)]) := by
          simp [mergeStep, List.lookup]
        have h2 := foldl_mergeStep_length xs [x] [(x.optionsHash, 0)]
        rw [List.foldl_cons, h1]
        simpa using h2
      have hM : mergeSinkList (x :: xs) = ((x :: xs).foldl mergeStep ([], [])).1 := by
        show (if 0 < (((x :: xs).foldl mergeStep ([], [])).1).length
            then ((x :: xs).foldl mergeStep ([], [])).1 else x :: xs) = _
        rw [if_pos hlen]
      have hinv := passInv_foldl (x :: xs) [] [] ⟨rfl, trivial⟩
      obtain ⟨-, hsepM⟩ := hinv
      have hfold2 := sepTypes_foldl (((x :: xs).foldl mergeStep ([], [])).1) [] [] hsepM
      rw [hM]
      show (if 0 < (((((x :: xs).foldl mergeStep ([], [])).1).foldl
            mergeStep ([], [])).1).length
          then ((((x :: xs).foldl mergeStep ([], [])).1).foldl mergeStep ([], [])).1
          else ((x :: xs).foldl mergeStep ([], [])).1) = _
      rw [hfold2]
      simp [hlen]
  refine ⟨hidem, ?_, ?_⟩
  · intro cfg
    show mergeSyncs { cfg with sinks := mergeSinkList cfg.sinks } = _
    unfold mergeSyncs
    simp [hidem]
  · intro a b hab htyp
    have h1 : mergeStep (([] : List Sink), ([] : List (String × Nat))) a =
        ([a], [(a.optionsHash, 0)]) := by
      simp [mergeStep, List.lookup]
    have hlook : List.lookup b.optionsHash [(a.optionsHash, 0)] = some 0 := by
      simp [List.lookup, hab]
    have h2 : mergeStep ([a], [(a.optionsHash, 0)]) b =
        ([a, b], [(b.optionsHash, 1), (a.optionsHash, 0)]) := by
      have hne : ¬ (b.type = a.type) := fun he => htyp he.symm
      simp [mergeStep, hlook, if_neg hne]
    have hfold : (([a, b].foldl mergeStep ([], [])).1) = [a, b] := by
      rw [List.foldl_cons, h1, List.foldl_cons, h2]
      rfl
    show (if 0 < (([a, b].foldl mergeStep ([], [])).1).length
        then ([a, b].foldl mergeStep ([], [])).1 else [a, b]) = [a, b]
    rw [hfold]
    simp

/-- C8 witness: two sinks sharing an options hash with different types
survive the pass unchanged, instantiating the non-merge conjunct. -/
theorem c8_sink_merge_idempotent_witness :
    mergeSinkList [⟨"n1", "blackhole", [], none, "h"⟩, ⟨"n2", "loki", [], none, "h"⟩] =
      [⟨"n1", "blackhole", [], none, "h"⟩, ⟨"n2", "loki", [], none, "h"⟩] :=
  c8_sink_merge_idempotent.2.2
    ⟨"n1", "blackhole", [], none, "h"⟩ ⟨"n2", "loki", [], none, "h"⟩ rfl (by decide)

end VectorOperator
